import Mathlib

/-!
Verification of the Session-Scoped Market Search Orchestrator (repository
CANTSOAR/paper).  The repository view exposes only the Next.js client
(`client/`), the README and the Makefile; the FastAPI backend under
`server/app` (session store, provider adapters, market aggregator, tool
dispatcher, conversation orchestrator) is referenced by the Makefile and
README but its source is not present.  Backend definitions below are
therefore modelled from the specification (each such definition's doc
comment starts with `Modelled from the spec:`); client-side definitions are
translated directly from the TypeScript sources.
-/

namespace Paper

/-- The two concrete market providers of the repository (README: "Adapters
for Kalshi and PolyMarket"). -/
inductive Provider where
  | kalshi
  | polymarket
deriving DecidableEq, Repr

/-- The common normalized market schema, from `client/src/lib/api.ts`
(`interface MarketContract`): all fields are strings; `volume` is a
currency-formatted string. -/
structure MarketContract where
  id : String
  provider : Provider
  title : String
  volume : String
  yesPrice : String
  noPrice : String
  expiry : String
deriving DecidableEq, Repr

/-- Modelled from the spec: the backend volume parser is not in the
client-only repository view.  Spec §4.2: "volume strings must be parsed to a
numeric magnitude, handling K/M suffixes and currency symbols".  Currency
symbols and separators are skipped, an optional decimal part is honoured and
a trailing `K`/`M` multiplies by 10^3 / 10^6. -/
def parseVolume (s : String) : Nat :=
  let chars := s.toList
  let mult : Nat :=
    match chars.getLast? with
    | some 'M' => 1000000
    | some 'm' => 1000000
    | some 'K' => 1000
    | some 'k' => 1000
    | _ => 1
  let core := chars.filter (fun c => c.isDigit || c == '.')
  let intPart := core.takeWhile (fun c => c != '.')
  let fracPart := ((core.dropWhile (fun c => c != '.')).drop 1).filter (fun c => c.isDigit)
  let digitsVal : List Char → Nat := fun l => l.foldl (fun a c => a * 10 + (c.toNat - 48)) 0
  digitsVal intPart * mult + digitsVal fracPart * mult / 10 ^ fracPart.length

/-- Descending-volume ordering used by the aggregator's ranking step:
`a` precedes `b` when `a`'s parsed volume is at least `b`'s. -/
def volGE (a b : MarketContract) : Prop :=
  parseVolume b.volume ≤ parseVolume a.volume

instance : DecidableRel volGE := fun _ _ => Nat.decLe _ _

instance : IsTotal MarketContract volGE :=
  ⟨fun a b => le_total (parseVolume b.volume) (parseVolume a.volume)⟩

instance : IsTrans MarketContract volGE :=
  ⟨fun _ _ _ hab hbc => le_trans hbc hab⟩

/-- Helper for last-write-wins deduplication: keeps the first occurrence of
each id not already in `seen`. -/
def dedupKeepFirstAux (seen : List String) : List MarketContract → List MarketContract
  | [] => []
  | c :: rest =>
    if c.id ∈ seen then dedupKeepFirstAux seen rest
    else c :: dedupKeepFirstAux (c.id :: seen) rest

/-- Modelled from the spec: §4.2 "deduplicate by `id` (last-write-wins is
acceptable ...)".  Keeping the first occurrence of the reversed list keeps
the last occurrence of the original. -/
def dedupById (l : List MarketContract) : List MarketContract :=
  (dedupKeepFirstAux [] l.reverse).reverse

/-- One provider's contribution to a dispatch, spec §4.2: a triple of
provider, contract list and optional error. -/
structure ProviderResult where
  provider : Provider
  contracts : List MarketContract
  error : Option String
deriving DecidableEq, Repr

/-- Modelled from the spec: §4.2 "return an empty list plus a structured
aggregate error (not a single provider's error)" — the aggregate keeps every
failed provider's reason. -/
structure AggregateError where
  reasons : List (Provider × String)
deriving DecidableEq, Repr

/-- Whether `needle` occurs as a contiguous run inside the second list. -/
def hasInfix (needle : List Char) : List Char → Bool
  | [] => needle.isEmpty
  | c :: t => needle.isPrefixOf (c :: t) || hasInfix needle t

/-- Modelled from the spec: §4.2 case-insensitive title match for the
optional free-text query filter. -/
def titleMatches (q : String) (c : MarketContract) : Bool :=
  hasInfix (q.toList.map Char.toLower) (c.title.toList.map Char.toLower)

/-- Modelled from the spec: the Market Aggregator, §4.2.  Concatenate all
successful providers' contracts; deduplicate by `id`; filter by the optional
case-insensitive query before ranking; sort by parsed volume descending; cap
at `cap` (default 50).  If every provider failed, return an empty list plus
a structured aggregate error. -/
def merge (results : List ProviderResult) (query : Option String) (cap : Nat := 50) :
    List MarketContract × Option AggregateError :=
  let ok := results.filter (fun r => r.error.isNone)
  let allContracts := (ok.map (fun r => r.contracts)).flatten
  let deduped := dedupById allContracts
  let filtered :=
    match query with
    | none => deduped
    | some q => deduped.filter (titleMatches q)
  let ranked := List.insertionSort volGE filtered
  let aggErr : Option AggregateError :=
    if results.length ≠ 0 ∧ ok.length = 0 then
      some ⟨results.filterMap (fun r => r.error.map (fun e => (r.provider, e)))⟩
    else none
  (ranked.take cap, aggErr)

/-- Provider selector of a SearchIntent, spec §3: one of the two concrete
providers or `Any`/`all`. -/
inductive ProviderFilter where
  | specific (p : Provider)
  | all
deriving DecidableEq, Repr

/-- Spec §3: a structured request to search one or more providers. -/
structure SearchIntent where
  provider : ProviderFilter
  query : String
deriving DecidableEq, Repr

/-- Spec §3: the externally visible summary attached to a `tool` Message:
`{ tool: "search_markets", args: {provider, query}, result_count }`. -/
structure ToolCallRecord where
  tool : String
  argsProvider : ProviderFilter
  argsQuery : String
  result_count : Nat
deriving DecidableEq, Repr

/-- Modelled from the spec: §4.3 — `Any` fans out to all configured
adapters, a specific value calls one. -/
def targetsOf : ProviderFilter → List Provider
  | .specific p => [p]
  | .all => [Provider.kalshi, Provider.polymarket]

/-- Modelled from the spec: §4.1 — an adapter's search capability.  A
provider failure is a value (`Except.error reason`), never an unhandled
fault: the adapter boundary is total. -/
def Adapters : Type :=
  Provider → String → Except String (List MarketContract)

/-- Result of one dispatch: the aggregated markets, the ToolCallRecord with
the post-aggregation count, and the aggregate error when every provider
failed. -/
structure DispatchOutcome where
  markets : List MarketContract
  record : ToolCallRecord
  aggError : Option AggregateError
deriving DecidableEq, Repr

/-- Modelled from the spec: §4.3 the Tool Dispatcher.  Resolves the target
adapters, invokes them (each failure degraded to an empty result plus a
reason), passes results through the Aggregator, and builds the
ToolCallRecord with the post-aggregation result count. -/
def invoke (adapters : Adapters) (intent : SearchIntent) (cap : Nat := 50) :
    DispatchOutcome :=
  let results := (targetsOf intent.provider).map (fun p =>
    match adapters p intent.query with
    | .ok cs => ProviderResult.mk p cs none
    | .error e => ProviderResult.mk p [] (some e))
  let m := merge results none cap
  ⟨m.1, ⟨"search_markets", intent.provider, intent.query, m.1.length⟩, m.2⟩

/-- Spec §3: the tagged Message variant (`user` / `tool` / `assistant`). -/
inductive Message where
  | user (content : String)
  | tool (record : ToolCallRecord)
  | assistant (content : String)
deriving DecidableEq, Repr

/-- Spec §3: a Session holds the ordered message sequence and the most
recently aggregated market list. -/
structure Session where
  messages : List Message
  latestMarkets : List MarketContract
deriving DecidableEq, Repr

/-- A freshly created session: empty transcript, no markets. -/
def emptySession : Session := ⟨[], []⟩

/-- The Session Store's state: sessions keyed by an opaque string id. -/
abbrev SessionStore : Type := List (String × Session)

namespace Store

/-- Association-list lookup by session id. -/
def lookup : SessionStore → String → Option Session
  | [], _ => none
  | (k, s) :: rest, sid => if k = sid then some s else lookup rest sid

/-- Replace the binding for `sid`, inserting it if absent. -/
def set : SessionStore → String → Session → SessionStore
  | [], sid, s => [(sid, s)]
  | (k, v) :: rest, sid, s =>
    if k = sid then (k, s) :: rest else (k, v) :: set rest sid s

/-- Modelled from the spec: §4.4 `getOrCreate(sessionId) → Session` —
created lazily on first use for an unseen key, with an empty transcript. -/
def getOrCreate (st : SessionStore) (sid : String) : SessionStore × Session :=
  match lookup st sid with
  | some s => (st, s)
  | none => (set st sid emptySession, emptySession)

/-- Modelled from the spec: §4.4 `append(sessionId, Message)` — the only
mutator of the message sequence; appends at the end, re-creating the
session if it was concurrently evicted. -/
def append (st : SessionStore) (sid : String) (m : Message) : SessionStore :=
  let cur := (lookup st sid).getD emptySession
  set st sid { cur with messages := cur.messages ++ [m] }

/-- Append a batch of messages in order. -/
def appendAll (st : SessionStore) (sid : String) (ms : List Message) : SessionStore :=
  ms.foldl (fun acc m => append acc sid m) st

/-- Modelled from the spec: §4.4 `drop(sessionId)` — idempotent teardown;
dropping an unknown or already-dropped id is a no-op, not an error. -/
def drop (st : SessionStore) (sid : String) : SessionStore :=
  st.filter (fun p => p.1 != sid)

/-- Record the most recently aggregated market list for the session
(spec §3: kept for idempotent re-display / client re-sync). -/
def setLatestMarkets (st : SessionStore) (sid : String)
    (ms : List MarketContract) : SessionStore :=
  let cur := (lookup st sid).getD emptySession
  set st sid { cur with latestMarkets := ms }

end Store

/-- Spec §2/§9: the NLU capability is opaque — given the conversation
history it returns zero or more search intents plus the reply text. -/
def NLU : Type :=
  List Message → List SearchIntent × String

/-- Response shape of `POST /chat`, spec §6. -/
structure ChatResponse where
  messages : List Message
  markets : List MarketContract
  tool_calls : List ToolCallRecord
deriving DecidableEq, Repr

/-- Issue-index ordering on buffered completion events. -/
def idxLE (a b : Nat × ToolCallRecord) : Prop := a.1 ≤ b.1

instance : DecidableRel idxLE := fun _ _ => Nat.decLe _ _

instance : IsTotal (Nat × ToolCallRecord) idxLE := ⟨fun a b => le_total a.1 b.1⟩

instance : IsTrans (Nat × ToolCallRecord) idxLE := ⟨fun _ _ _ h h' => le_trans h h'⟩

/-- Strict issue-index ordering on buffered completion events. -/
def idxLT (a b : Nat × ToolCallRecord) : Prop := a.1 < b.1

instance : IsAntisymm (Nat × ToolCallRecord) idxLT :=
  ⟨fun _ _ h h' => absurd (Nat.lt_trans h h') (Nat.lt_irrefl _)⟩

/-- The stream of completion events produced by a dispatch schedule:
`arrival` lists the dispatch indices in the order their providers finished,
and each index is paired with that dispatch's tool record. -/
def completionEvents (records : List ToolCallRecord) (arrival : List Nat) :
    List (Nat × ToolCallRecord) :=
  arrival.filterMap (fun i => (records[i]?).map (fun r => (i, r)))

/-- Modelled from the spec: §5 — dispatch results complete in an arbitrary
`arrival` order of issue indices; completed results are buffered and the
tool records are emitted in intent issue order, never completion order. -/
def collectToolRecords (records : List ToolCallRecord) (arrival : List Nat) :
    List ToolCallRecord :=
  (List.insertionSort idxLE (completionEvents records arrival)).map (fun e => e.2)

/-- The conversation history a turn hands to the NLU capability: the stored
transcript followed by the incoming user message. -/
def turnContext (st : SessionStore) (sid userText : String) : List Message :=
  (Store.getOrCreate st sid).2.messages ++ [Message.user userText]

/-- The dispatch outcomes of a turn, in intent issue order. -/
def turnOutcomes (adapters : Adapters) (nlu : NLU) (cap : Nat)
    (st : SessionStore) (sid userText : String) : List DispatchOutcome :=
  ((nlu (turnContext st sid userText)).1).map (fun i => invoke adapters i cap)

/-- The tool records of a turn, in intent issue order. -/
def turnRecords (adapters : Adapters) (nlu : NLU) (cap : Nat)
    (st : SessionStore) (sid userText : String) : List ToolCallRecord :=
  (turnOutcomes adapters nlu cap st sid userText).map (fun o => o.record)

/-- The assistant reply text of a turn. -/
def turnReply (nlu : NLU) (st : SessionStore) (sid userText : String) : String :=
  (nlu (turnContext st sid userText)).2

/-- The market list a turn returns: the union, via the Aggregator's own
dedup, of all dispatches in the turn (spec §4.5). -/
def turnUnion (adapters : Adapters) (nlu : NLU) (cap : Nat)
    (st : SessionStore) (sid userText : String) : List MarketContract :=
  dedupById (((turnOutcomes adapters nlu cap st sid userText).map
    (fun o => o.markets)).flatten)

/-- Modelled from the spec: §4.5 the Conversation Orchestrator's turn.
Append the user message, obtain intents and reply text from the opaque NLU
capability, dispatch every intent (concurrently; `arrival` is the completion
order of dispatch indices), append one `tool` Message per dispatch in issue
order, then append the `assistant` Message; the market list returned is the
union (via the Aggregator's own dedup) of all dispatches in the turn. -/
def runTurn (adapters : Adapters) (nlu : NLU) (cap : Nat) (st : SessionStore)
    (sid : String) (userText : String) (arrival : List Nat) :
    SessionStore × ChatResponse :=
  let orderedRecords :=
    collectToolRecords (turnRecords adapters nlu cap st sid userText) arrival
  let unionMarkets := turnUnion adapters nlu cap st sid userText
  let newMsgs := Message.user userText :: (orderedRecords.map Message.tool
    ++ [Message.assistant (turnReply nlu st sid userText)])
  let st2 := Store.appendAll (Store.getOrCreate st sid).1 sid newMsgs
  let st3 := Store.setLatestMarkets st2 sid unionMarkets
  (st3, ⟨((Store.lookup st3 sid).getD emptySession).messages, unionMarkets, orderedRecords⟩)

/-- Session-store states reachable through the orchestrator's operations:
the empty store, lazy session creation, completed turns and drops. -/
inductive Reachable : SessionStore → Prop where
  | init : Reachable []
  | create {st : SessionStore} (sid : String) :
      Reachable st → Reachable (Store.getOrCreate st sid).1
  | turn {st : SessionStore} (adapters : Adapters) (nlu : NLU) (cap : Nat)
      (sid userText : String) (arrival : List Nat) :
      Reachable st → Reachable (runTurn adapters nlu cap st sid userText arrival).1
  | dropStep {st : SessionStore} (sid : String) :
      Reachable st → Reachable (Store.drop st sid)

/-- Spec §3's Message invariant, as a shape on transcripts: a transcript is
a sequence of completed turn blocks, each a `user` message, followed by the
`tool` messages it triggered, followed by exactly one `assistant` message. -/
inductive TurnBlocks : List Message → Prop where
  | nil : TurnBlocks []
  | block (u : String) (recs : List ToolCallRecord) (a : String)
      (rest : List Message) : TurnBlocks rest →
      TurnBlocks (Message.user u :: (recs.map Message.tool
        ++ (Message.assistant a :: rest)))


/-- Client-side chat message shape, from `client/src/lib/api.ts`
(`interface ChatMessage`): optional fields become `Option`, the
`Record<string, string>` args become an association list. -/
structure ClientChatMessage where
  role : String
  content : String
  tool : Option String
  args : List (String × String)
  result_count : Option Nat
deriving DecidableEq, Repr

/-- Client-side tool-call summary, from `client/src/lib/api.ts`
(`interface ChatResponse`, `tool_calls` element shape). -/
structure ClientToolCall where
  tool : String
  args : List (String × String)
  result_count : Nat
deriving DecidableEq, Repr

/-- Client-side `/chat` response, from `client/src/lib/api.ts`
(`interface ChatResponse`). -/
structure ClientChatResponse where
  messages : List ClientChatMessage
  markets : List MarketContract
  tool_calls : List ClientToolCall
deriving DecidableEq, Repr

/-- The chat page state touched by `handleSend`, from
`client/src/app/page.tsx`: the `messages` and `markets` useState cells. -/
structure HomeState where
  messages : List ClientChatMessage
  markets : List MarketContract
deriving DecidableEq, Repr

/-- Translates the success path of `handleSend` in
`client/src/app/page.tsx` (lines 38–42): `setMessages(response.messages)`
unconditionally, and `setMarkets(response.markets)` only when
`response.markets.length > 0`. -/
def handleSendSuccess (st : HomeState) (response : ClientChatResponse) : HomeState :=
  { st with
    messages := response.messages
    markets := if response.markets.length > 0 then response.markets else st.markets }

/-- Translates the provider derivation of `MarketsPage` in
`src/unnamed/part_004` (lines 19–23): the two toggle booleans collapse to
one provider value, with "all" as the fall-through when both are off. -/
def deriveProvider (showKalshi showPolymarket : Bool) : String :=
  if showKalshi && showPolymarket then "all"
  else if showKalshi then "kalshi"
  else if showPolymarket then "polymarket"
  else "all"

/-- Translates the `URLSearchParams` construction of `fetchMarkets` in
`client/src/lib/api.ts` (lines 120–126): `query` is set only when
non-empty, `provider` only when it differs from "all". -/
def fetchMarketsParams (query provider : String) : List (String × String) :=
  (if query ≠ "" then [("query", query)] else [])
    ++ (if provider ≠ "all" then [("provider", provider)] else [])

/-- Translates the URL assembly of `fetchMarkets`: `/markets` plus `?qs`
only when the parameter string is non-empty. -/
def fetchMarketsPath (query provider : String) : String :=
  let qs := String.intercalate "&"
    ((fetchMarketsParams query provider).map (fun p => p.1 ++ "=" ++ p.2))
  "/markets" ++ (if qs = "" then "" else "?" ++ qs)

/-- Sample contract with a two-million-dollar volume string. -/
def sample2M : MarketContract :=
  ⟨"k-2m", Provider.kalshi, "Two million market", "$2M", "10", "90", "2026-01-01"⟩

/-- Sample contract with a nine-hundred-thousand-dollar volume string. -/
def sample900K : MarketContract :=
  ⟨"p-900k", Provider.polymarket, "Nine hundred K market", "$900K", "20", "80", "2026-02-01"⟩

/-- Sample contract with a five-thousand-dollar volume string. -/
def sample5K : MarketContract :=
  ⟨"k-5k", Provider.kalshi, "Five K market", "$5K", "30", "70", "2026-03-01"⟩

/-- Sample adapter set in which Kalshi times out and PolyMarket answers
with three contracts. -/
def timeoutAdapters : Adapters := fun p _ =>
  match p with
  | Provider.kalshi => Except.error "timeout"
  | Provider.polymarket => Except.ok [sample2M, sample900K, sample5K]

/-- Sample failure reason assignment: every provider call times out. -/
def failAllReason : Provider → String → String := fun _ _ => "timeout"

/-- Sample NLU capability emitting a single fan-out intent. -/
def oneIntentNLU : NLU := fun _ => ([⟨ProviderFilter.all, "coffee"⟩], "no matching markets")

/-- Sample NLU capability emitting two intents A (Kalshi/coffee) then
B (PolyMarket/brazil), in that issue order. -/
def twoIntentNLU : NLU := fun _ =>
  ([⟨ProviderFilter.specific Provider.kalshi, "coffee"⟩,
    ⟨ProviderFilter.specific Provider.polymarket, "brazil"⟩], "here are your hedges")

/-- Sample adapters answering one contract per provider. -/
def splitAdapters : Adapters := fun p _ =>
  match p with
  | Provider.kalshi => Except.ok [sample5K]
  | Provider.polymarket => Except.ok [sample900K]

namespace Store

theorem lookup_set_self (st : SessionStore) (sid : String) (s : Session) :
    lookup (set st sid s) sid = some s := by
  induction st with
  | nil => simp [set, lookup]
  | cons hd tl ih =>
    obtain ⟨k, v⟩ := hd
    by_cases h : k = sid
    · simp [set, h, lookup]
    · simp [set, h, lookup, ih]

theorem lookup_set_ne (st : SessionStore) {sid sid' : String} (s : Session)
    (h : sid' ≠ sid) : lookup (set st sid s) sid' = lookup st sid' := by
  induction st with
  | nil => simp [set, lookup, Ne.symm h]
  | cons hd tl ih =>
    obtain ⟨k, v⟩ := hd
    by_cases hk : k = sid
    · subst hk
      simp [set, lookup, Ne.symm h]
    · simp [set, hk, lookup, ih]

theorem lookup_getOrCreate_self (st : SessionStore) (sid : String) :
    lookup (getOrCreate st sid).1 sid = some (getOrCreate st sid).2 := by
  unfold getOrCreate
  cases h : lookup st sid with
  | none => simp [lookup_set_self]
  | some s => simp [h]

theorem lookup_getOrCreate_ne (st : SessionStore) {sid sid' : String}
    (h : sid' ≠ sid) : lookup (getOrCreate st sid).1 sid' = lookup st sid' := by
  unfold getOrCreate
  cases hh : lookup st sid <;> simp [lookup_set_ne _ _ h]

theorem getOrCreate_fresh (st : SessionStore) (sid : String)
    (h : lookup st sid = none) : (getOrCreate st sid).2 = emptySession := by
  simp [getOrCreate, h]

theorem lookup_append_self (st : SessionStore) (sid : String) (m : Message)
    (s : Session) (h : lookup st sid = some s) :
    lookup (append st sid m) sid = some ⟨s.messages ++ [m], s.latestMarkets⟩ := by
  unfold append
  rw [h]
  simpa using lookup_set_self st sid _

theorem lookup_append_ne (st : SessionStore) {sid sid' : String} (m : Message)
    (h : sid' ≠ sid) : lookup (append st sid m) sid' = lookup st sid' := by
  unfold append
  exact lookup_set_ne st _ h

theorem lookup_appendAll_self (sid : String) (ms : List Message) :
    ∀ (st : SessionStore) (s : Session), lookup st sid = some s →
      lookup (appendAll st sid ms) sid = some ⟨s.messages ++ ms, s.latestMarkets⟩ := by
  induction ms with
  | nil =>
    intro st s h
    simpa [appendAll] using h
  | cons m ms ih =>
    intro st s h
    have h1 := lookup_append_self st sid m s h
    have h2 := ih _ _ h1
    simpa [appendAll] using h2

theorem lookup_appendAll_ne (sid : String) (ms : List Message) :
    ∀ (st : SessionStore) {sid' : String}, sid' ≠ sid →
      lookup (appendAll st sid ms) sid' = lookup st sid' := by
  induction ms with
  | nil => intro st sid' _; rfl
  | cons m ms ih =>
    intro st sid' h
    have h2 := ih (append st sid m) h
    rw [appendAll] at h2 ⊢
    simpa [lookup_append_ne st m h] using h2

theorem lookup_setLatestMarkets_self (st : SessionStore) (sid : String)
    (mk : List MarketContract) (s : Session) (h : lookup st sid = some s) :
    lookup (setLatestMarkets st sid mk) sid = some ⟨s.messages, mk⟩ := by
  unfold setLatestMarkets
  rw [h]
  simpa using lookup_set_self st sid _

theorem lookup_setLatestMarkets_ne (st : SessionStore) {sid sid' : String}
    (mk : List MarketContract) (h : sid' ≠ sid) :
    lookup (setLatestMarkets st sid mk) sid' = lookup st sid' := by
  unfold setLatestMarkets
  exact lookup_set_ne st _ h

theorem lookup_drop_self (st : SessionStore) (sid : String) :
    lookup (drop st sid) sid = none := by
  induction st with
  | nil => rfl
  | cons hd tl ih =>
    obtain ⟨k, v⟩ := hd
    by_cases h : k = sid
    · simpa [drop, List.filter_cons, h] using ih
    · simpa [drop, List.filter_cons, h, lookup] using ih

theorem lookup_drop_ne (st : SessionStore) {sid sid' : String} (h : sid' ≠ sid) :
    lookup (drop st sid) sid' = lookup st sid' := by
  induction st with
  | nil => rfl
  | cons hd tl ih =>
    obtain ⟨k, v⟩ := hd
    by_cases hk : k = sid
    · subst hk
      simpa [drop, List.filter_cons, lookup, Ne.symm h] using ih
    · simp [drop, List.filter_cons, hk, lookup] at ih ⊢
      rw [ih]

theorem drop_drop (st : SessionStore) (sid : String) :
    drop (drop st sid) sid = drop st sid := by
  simp [drop, List.filter_filter]

theorem drop_of_lookup_none (st : SessionStore) (sid : String)
    (h : lookup st sid = none) : drop st sid = st := by
  induction st with
  | nil => rfl
  | cons hd tl ih =>
    obtain ⟨k, v⟩ := hd
    rw [lookup] at h
    by_cases hk : k = sid
    · rw [if_pos hk] at h
      cases h
    · rw [if_neg hk] at h
      simp [drop, List.filter_cons, hk] at ih ⊢
      exact ih h

end Store

theorem dedupKeepFirstAux_sublist (seen : List String) (l : List MarketContract) :
    List.Sublist (dedupKeepFirstAux seen l) l := by
  induction l generalizing seen with
  | nil => simp [dedupKeepFirstAux]
  | cons c rest ih =>
    rw [dedupKeepFirstAux]
    by_cases h : c.id ∈ seen
    · rw [if_pos h]
      exact (ih seen).cons c
    · rw [if_neg h]
      exact (ih _).cons₂ c

theorem nodup_ids_dedupKeepFirstAux (seen : List String) (l : List MarketContract) :
    ((dedupKeepFirstAux seen l).map (fun c => c.id)).Nodup
      ∧ ∀ x ∈ (dedupKeepFirstAux seen l).map (fun c => c.id), x ∉ seen := by
  induction l generalizing seen with
  | nil => simp [dedupKeepFirstAux]
  | cons c rest ih =>
    rw [dedupKeepFirstAux]
    by_cases h : c.id ∈ seen
    · rw [if_pos h]
      exact ih seen
    · rw [if_neg h]
      obtain ⟨hn, hs⟩ := ih (c.id :: seen)
      refine ⟨List.nodup_cons.mpr ⟨fun hmem => (hs _ hmem) (List.mem_cons_self _ _), hn⟩, ?_⟩
      intro x hx
      rcases List.mem_cons.mp hx with he | hm
      · rw [he]
        exact h
      · exact fun hxs => (hs _ hm) (List.mem_cons_of_mem _ hxs)

theorem mem_ids_dedupKeepFirstAux (seen : List String) (l : List MarketContract)
    (c : MarketContract) (hc : c ∈ l) (hns : c.id ∉ seen) :
    c.id ∈ (dedupKeepFirstAux seen l).map (fun x => x.id) := by
  induction l generalizing seen with
  | nil => cases hc
  | cons d rest ih =>
    rw [dedupKeepFirstAux]
    by_cases h : d.id ∈ seen
    · rw [if_pos h]
      rcases List.mem_cons.mp hc with he | hm
      · exact absurd (he ▸ h) hns
      · exact ih seen hm hns
    · rw [if_neg h]
      rcases List.mem_cons.mp hc with he | hm
      · rw [he]
        exact List.mem_cons_self _ _
      · by_cases hcd : c.id = d.id
        · rw [List.map_cons, hcd]
          exact List.mem_cons_self _ _
        · rw [List.map_cons]
          refine List.mem_cons_of_mem _ (ih (d.id :: seen) hm ?_)
          intro hx
          rcases List.mem_cons.mp hx with h1 | h2
          · exact hcd h1
          · exact hns h2

theorem dedupKeepFirstAux_eq_self (seen : List String) (l : List MarketContract)
    (hn : (l.map (fun c => c.id)).Nodup) (hs : ∀ c ∈ l, c.id ∉ seen) :
    dedupKeepFirstAux seen l = l := by
  induction l generalizing seen with
  | nil => rfl
  | cons c rest ih =>
    rw [List.map_cons, List.nodup_cons] at hn
    rw [dedupKeepFirstAux, if_neg (hs c (List.mem_cons_self _ _))]
    congr 1
    refine ih _ hn.2 ?_
    intro d hd hmem
    rcases List.mem_cons.mp hmem with h1 | h2
    · exact hn.1 (h1 ▸ List.mem_map_of_mem _ hd)
    · exact hs d (List.mem_cons_of_mem _ hd) h2

theorem dedupById_sublist (l : List MarketContract) : List.Sublist (dedupById l) l := by
  have h := (dedupKeepFirstAux_sublist [] l.reverse).reverse
  simpa [dedupById] using h

theorem nodup_ids_dedupById (l : List MarketContract) :
    ((dedupById l).map (fun c => c.id)).Nodup := by
  have h := (nodup_ids_dedupKeepFirstAux [] l.reverse).1
  rw [dedupById, List.map_reverse, List.nodup_reverse]
  exact h

theorem mem_ids_dedupById (l : List MarketContract) (c : MarketContract)
    (h : c ∈ l) : c.id ∈ (dedupById l).map (fun x => x.id) := by
  have hm := mem_ids_dedupKeepFirstAux [] l.reverse c
    (List.mem_reverse.mpr h) (by simp)
  rw [dedupById, List.map_reverse, List.mem_reverse]
  exact hm

theorem dedupById_eq_self (l : List MarketContract)
    (h : (l.map (fun c => c.id)).Nodup) : dedupById l = l := by
  rw [dedupById, dedupKeepFirstAux_eq_self [] l.reverse
    (by rwa [List.map_reverse, List.nodup_reverse]) (by simp), List.reverse_reverse]

theorem completionEvents_range' (full : List ToolCallRecord) :
    ∀ (l : List ToolCallRecord) (s : Nat), full.drop s = l →
      completionEvents full (List.range' s l.length) = l.enumFrom s := by
  intro l
  induction l with
  | nil => intro s _; rfl
  | cons x xs ih =>
    intro s h
    have hx : full[s]? = some x := by
      have h0 : (full.drop s)[0]? = some x := by rw [h]; simp
      rwa [List.getElem?_drop, Nat.add_zero] at h0
    have hxs : full.drop (s + 1) = xs := by
      have h1 := congrArg (List.drop 1) h
      simpa [List.drop_drop, Nat.add_comm] using h1
    rw [List.length_cons, List.range'_succ]
    rw [completionEvents, List.filterMap_cons]
    rw [hx]
    simp only [Option.map_some']
    rw [show List.filterMap (fun i => (full[i]?).map (fun r => (i, r)))
        (List.range' (s + 1) xs.length) = completionEvents full (List.range' (s + 1) xs.length)
      from rfl]
    rw [ih (s + 1) hxs]
    rfl

theorem completionEvents_range (records : List ToolCallRecord) :
    completionEvents records (List.range records.length) = records.enum := by
  have h := completionEvents_range' records records 0 (by simp)
  simpa [List.range_eq_range'] using h

theorem completionEvents_perm (records : List ToolCallRecord)
    (arrival : List Nat) (h : arrival.Perm (List.range records.length)) :
    (completionEvents records arrival).Perm records.enum := by
  have h1 : (completionEvents records arrival).Perm
      (completionEvents records (List.range records.length)) :=
    h.filterMap (fun i => (records[i]?).map (fun r => (i, r)))
  rw [completionEvents_range records] at h1
  exact h1

theorem collectToolRecords_of_perm_range (records : List ToolCallRecord)
    (arrival : List Nat) (h : arrival.Perm (List.range records.length)) :
    collectToolRecords records arrival = records := by
  have hev := completionEvents_perm records arrival h
  have hperm : (List.insertionSort idxLE (completionEvents records arrival)).Perm
      records.enum := (List.perm_insertionSort idxLE _).trans hev
  have hnodupfst :
      ((List.insertionSort idxLE (completionEvents records arrival)).map Prod.fst).Nodup := by
    have hp := hperm.map Prod.fst
    rw [List.enum_map_fst] at hp
    exact hp.nodup_iff.mpr (List.nodup_range _)
  have hsorted_le : (List.insertionSort idxLE (completionEvents records arrival)).Pairwise idxLE :=
    List.sorted_insertionSort idxLE _
  have hne : (List.insertionSort idxLE (completionEvents records arrival)).Pairwise
      (fun a b => a.1 ≠ b.1) := List.pairwise_map.mp hnodupfst
  have hsorted_lt :
      (List.insertionSort idxLE (completionEvents records arrival)).Pairwise idxLT := by
    have hand := hsorted_le.and hne
    refine hand.imp ?_
    intro a b hab
    exact lt_of_le_of_ne hab.1 hab.2
  have henum_lt : records.enum.Pairwise idxLT := by
    have hr : (records.enum.map Prod.fst).Pairwise (· < ·) := by
      rw [List.enum_map_fst]
      exact List.pairwise_lt_range _
    have hr2 := List.pairwise_map.mp hr
    exact hr2
  have heq : List.insertionSort idxLE (completionEvents records arrival) = records.enum :=
    List.eq_of_perm_of_sorted hperm hsorted_lt henum_lt
  rw [collectToolRecords, heq]
  exact List.enum_map_snd records

theorem merge_fst (results : List ProviderResult) (q : Option String) (cap : Nat) :
    (merge results q cap).1 =
      (List.insertionSort volGE (match q with
        | none => dedupById (((results.filter (fun r => r.error.isNone)).map
            (fun r => r.contracts)).flatten)
        | some qq => (dedupById (((results.filter (fun r => r.error.isNone)).map
            (fun r => r.contracts)).flatten)).filter (titleMatches qq))).take cap := rfl

theorem merge_fst_none (results : List ProviderResult) (cap : Nat) :
    (merge results none cap).1 =
      (List.insertionSort volGE (dedupById (((results.filter
          (fun r => r.error.isNone)).map (fun r => r.contracts)).flatten))).take cap := rfl

theorem merge_snd (results : List ProviderResult) (q : Option String) (cap : Nat) :
    (merge results q cap).2 =
      if results.length ≠ 0 ∧ (results.filter (fun r => r.error.isNone)).length = 0 then
        some ⟨results.filterMap (fun r => r.error.map (fun e => (r.provider, e)))⟩
      else none := rfl

theorem merge_pairwise (results : List ProviderResult) (q : Option String) (cap : Nat) :
    (merge results q cap).1.Pairwise volGE := by
  rw [merge_fst]
  exact (List.sorted_insertionSort volGE _).sublist (List.take_sublist _ _)

theorem merge_nodup_ids (results : List ProviderResult) (q : Option String) (cap : Nat) :
    ((merge results q cap).1.map (fun c => c.id)).Nodup := by
  rw [merge_fst]
  have hnodup : ∀ filtered : List MarketContract,
      (filtered.map (fun c => c.id)).Nodup →
      (((List.insertionSort volGE filtered).take cap).map (fun c => c.id)).Nodup := by
    intro filtered hf
    have hperm := (List.perm_insertionSort volGE filtered).map (fun c => c.id)
    have hs : ((List.insertionSort volGE filtered).map (fun c => c.id)).Nodup :=
      hperm.nodup_iff.mpr hf
    exact hs.sublist ((List.take_sublist cap _).map _)
  cases q with
  | none => exact hnodup _ (nodup_ids_dedupById _)
  | some qq =>
    exact hnodup _ ((nodup_ids_dedupById _).sublist ((List.filter_sublist _).map _))

theorem merge_mem_ids (results : List ProviderResult) (cap : Nat)
    (c : MarketContract) (pr : ProviderResult) (hpr : pr ∈ results)
    (herr : pr.error = none) (hc : c ∈ pr.contracts)
    (hcap : (((results.filter (fun r => r.error.isNone)).map
        (fun r => r.contracts)).flatten).length ≤ cap) :
    c.id ∈ (merge results none cap).1.map (fun x => x.id) := by
  rw [merge_fst]
  generalize hA : ((results.filter (fun r => r.error.isNone)).map
      (fun r => r.contracts)).flatten = A at hcap
  have hmemA : c ∈ A := by
    rw [← hA, List.mem_flatten]
    exact ⟨pr.contracts, List.mem_map_of_mem _
      (List.mem_filter.mpr ⟨hpr, by simp [herr]⟩), hc⟩
  have hded : c.id ∈ (dedupById A).map (fun x => x.id) := mem_ids_dedupById _ _ hmemA
  have hlen : (List.insertionSort volGE (dedupById A)).length ≤ cap := by
    rw [List.length_insertionSort]
    exact le_trans (List.Sublist.length_le (dedupById_sublist A)) hcap
  rw [List.take_of_length_le hlen]
  have hperm := (List.perm_insertionSort volGE (dedupById A)).map (fun x => x.id)
  exact hperm.mem_iff.mpr hded

theorem merge_all_failed (results : List ProviderResult) (q : Option String) (cap : Nat)
    (h : ∀ r ∈ results, r.error.isSome = true) :
    (merge results q cap).1 = []
    ∧ (merge results q cap).2 = (if results.length ≠ 0 then
        some ⟨results.filterMap (fun r => r.error.map (fun e => (r.provider, e)))⟩
      else none) := by
  have hok : results.filter (fun r => r.error.isNone) = [] := by
    rw [List.filter_eq_nil_iff]
    intro r hr
    have hs := h r hr
    cases he : r.error with
    | none => rw [he] at hs; cases hs
    | some e => simp [he]
  constructor
  · rw [merge_fst, hok]
    cases q <;> simp [dedupById, dedupKeepFirstAux]
  · rw [merge_snd, hok]
    simp

theorem invoke_markets (adapters : Adapters) (intent : SearchIntent) (cap : Nat) :
    (invoke adapters intent cap).markets =
      (merge ((targetsOf intent.provider).map (fun p =>
        match adapters p intent.query with
        | .ok cs => ProviderResult.mk p cs none
        | .error e => ProviderResult.mk p [] (some e))) none cap).1 := rfl

theorem invoke_record (adapters : Adapters) (intent : SearchIntent) (cap : Nat) :
    (invoke adapters intent cap).record =
      ⟨"search_markets", intent.provider, intent.query,
        (invoke adapters intent cap).markets.length⟩ := rfl

theorem invoke_aggError (adapters : Adapters) (intent : SearchIntent) (cap : Nat) :
    (invoke adapters intent cap).aggError =
      (merge ((targetsOf intent.provider).map (fun p =>
        match adapters p intent.query with
        | .ok cs => ProviderResult.mk p cs none
        | .error e => ProviderResult.mk p [] (some e))) none cap).2 := rfl

theorem invoke_failing (efn : Provider → String → String) (intent : SearchIntent)
    (cap : Nat) :
    (invoke (fun p s => Except.error (efn p s)) intent cap).markets = []
    ∧ (invoke (fun p s => Except.error (efn p s)) intent cap).record =
        ⟨"search_markets", intent.provider, intent.query, 0⟩
    ∧ ((invoke (fun p s => Except.error (efn p s)) intent cap).aggError).isSome = true := by
  have hall : ∀ r ∈ (targetsOf intent.provider).map (fun p =>
      match (fun p s => Except.error (efn p s) : Adapters) p intent.query with
      | .ok cs => ProviderResult.mk p cs none
      | .error e => ProviderResult.mk p [] (some e)), r.error.isSome = true := by
    intro r hr
    rcases List.mem_map.mp hr with ⟨p, _, he⟩
    rw [← he]
    rfl
  have hm := merge_all_failed _ none cap hall
  have hmk : (invoke (fun p s => Except.error (efn p s)) intent cap).markets = [] := by
    rw [invoke_markets]
    exact hm.1
  refine ⟨hmk, ?_, ?_⟩
  · rw [invoke_record, hmk]
    rfl
  · rw [invoke_aggError]
    rw [hm.2]
    have hne : ((targetsOf intent.provider).map (fun p =>
        match (fun p s => Except.error (efn p s) : Adapters) p intent.query with
        | .ok cs => ProviderResult.mk p cs none
        | .error e => ProviderResult.mk p [] (some e))).length ≠ 0 := by
      cases hp : intent.provider <;> simp [targetsOf]
    rw [if_pos hne]
    rfl

theorem invoke_all_failed_reasons (efn : Provider → String → String)
    (q : String) (cap : Nat) :
    (invoke (fun p s => Except.error (efn p s)) ⟨ProviderFilter.all, q⟩ cap).aggError =
      some ⟨[(Provider.kalshi, efn Provider.kalshi q),
             (Provider.polymarket, efn Provider.polymarket q)]⟩ := by
  rw [invoke_aggError, merge_snd]
  simp [targetsOf]

theorem runTurn_lookup_self (adapters : Adapters) (nlu : NLU) (cap : Nat)
    (st : SessionStore) (sid u : String) (arrival : List Nat) :
    Store.lookup (runTurn adapters nlu cap st sid u arrival).1 sid =
      some ⟨(Store.getOrCreate st sid).2.messages
          ++ (Message.user u ::
              (((collectToolRecords (turnRecords adapters nlu cap st sid u) arrival).map
                  Message.tool) ++ [Message.assistant (turnReply nlu st sid u)])),
        turnUnion adapters nlu cap st sid u⟩ := by
  have h1 : Store.lookup (Store.getOrCreate st sid).1 sid =
      some (Store.getOrCreate st sid).2 := Store.lookup_getOrCreate_self st sid
  have h2 := Store.lookup_appendAll_self sid
    (Message.user u ::
      (((collectToolRecords (turnRecords adapters nlu cap st sid u) arrival).map
          Message.tool) ++ [Message.assistant (turnReply nlu st sid u)]))
    _ _ h1
  have h3 := Store.lookup_setLatestMarkets_self _ sid
    (turnUnion adapters nlu cap st sid u) _ h2
  exact h3

theorem runTurn_lookup_ne (adapters : Adapters) (nlu : NLU) (cap : Nat)
    (st : SessionStore) (sid u : String) (arrival : List Nat) {sid' : String}
    (h : sid' ≠ sid) :
    Store.lookup (runTurn adapters nlu cap st sid u arrival).1 sid' =
      Store.lookup st sid' := by
  show Store.lookup (Store.setLatestMarkets (Store.appendAll
    (Store.getOrCreate st sid).1 sid _) sid _) sid' = _
  rw [Store.lookup_setLatestMarkets_ne _ _ h, Store.lookup_appendAll_ne _ _ _ h,
    Store.lookup_getOrCreate_ne _ h]

theorem TurnBlocks.append_turn {l : List Message} (h : TurnBlocks l) (u : String)
    (recs : List ToolCallRecord) (a : String) :
    TurnBlocks (l ++ (Message.user u ::
      (recs.map Message.tool ++ [Message.assistant a]))) := by
  induction h with
  | nil => simpa using TurnBlocks.block u recs a [] TurnBlocks.nil
  | block u' recs' a' rest _ ih =>
    have hb := TurnBlocks.block u' recs' a'
      (rest ++ (Message.user u :: (recs.map Message.tool ++ [Message.assistant a]))) ih
    simpa [List.cons_append, List.append_assoc] using hb

theorem TurnBlocks.last_assistant {l : List Message} (h : TurnBlocks l) :
    l = [] ∨ ∃ a, l.getLast? = some (Message.assistant a) := by
  induction h with
  | nil => exact Or.inl rfl
  | block u recs a rest _ ih =>
    right
    rcases ih with hnil | ⟨a', ha'⟩
    · subst hnil
      refine ⟨a, ?_⟩
      have hshape : Message.user u :: (recs.map Message.tool
          ++ (Message.assistant a :: ([] : List Message)))
          = (Message.user u :: recs.map Message.tool) ++ [Message.assistant a] := by
        simp
      rw [hshape, List.getLast?_concat]
    · refine ⟨a', ?_⟩
      have hne : rest ≠ [] := by
        intro hh
        rw [hh] at ha'
        cases ha'
      have hshape : Message.user u :: (recs.map Message.tool
          ++ (Message.assistant a :: rest))
          = (Message.user u :: (recs.map Message.tool ++ [Message.assistant a]))
            ++ rest := by
        simp
      rw [hshape, List.getLast?_append_of_ne_nil _ hne]
      exact ha'

theorem TurnBlocks.not_trailing_tool {l : List Message} (h : TurnBlocks l)
    (r : ToolCallRecord) : l.getLast? ≠ some (Message.tool r) := by
  rcases h.last_assistant with hnil | ⟨a, ha⟩
  · rw [hnil]
    simp
  · rw [ha]
    simp

theorem merge_one_failed_one_ok (p1 p2 : Provider) (e : String)
    (bs : List MarketContract) (cap : Nat)
    (hnd : (bs.map (fun c => c.id)).Nodup) (hlen : bs.length ≤ cap) :
    (merge [⟨p1, [], some e⟩, ⟨p2, bs, none⟩] none cap).1.Perm bs
    ∧ (merge [⟨p1, [], some e⟩, ⟨p2, bs, none⟩] none cap).1.length = bs.length
    ∧ (merge [⟨p1, [], some e⟩, ⟨p2, bs, none⟩] none cap).2 = none := by
  have h1 : (merge [⟨p1, [], some e⟩, ⟨p2, bs, none⟩] none cap).1
      = List.insertionSort volGE bs := by
    rw [merge_fst_none]
    have hfil : ([⟨p1, [], some e⟩, ⟨p2, bs, none⟩] : List ProviderResult).filter
        (fun r => r.error.isNone) = [⟨p2, bs, none⟩] := rfl
    rw [hfil]
    have hfl : (([⟨p2, bs, none⟩] : List ProviderResult).map
        (fun r => r.contracts)).flatten = bs := by simp
    rw [hfl, dedupById_eq_self bs hnd]
    exact List.take_of_length_le (by rw [List.length_insertionSort]; exact hlen)
  refine ⟨?_, ?_, ?_⟩
  · rw [h1]
    exact List.perm_insertionSort volGE bs
  · rw [h1, List.length_insertionSort]
  · rw [merge_snd]
    simp

theorem merge_one_ok_one_failed (p1 p2 : Provider) (e : String)
    (bs : List MarketContract) (cap : Nat)
    (hnd : (bs.map (fun c => c.id)).Nodup) (hlen : bs.length ≤ cap) :
    (merge [⟨p1, bs, none⟩, ⟨p2, [], some e⟩] none cap).1.Perm bs
    ∧ (merge [⟨p1, bs, none⟩, ⟨p2, [], some e⟩] none cap).1.length = bs.length
    ∧ (merge [⟨p1, bs, none⟩, ⟨p2, [], some e⟩] none cap).2 = none := by
  have h1 : (merge [⟨p1, bs, none⟩, ⟨p2, [], some e⟩] none cap).1
      = List.insertionSort volGE bs := by
    rw [merge_fst_none]
    have hfil : ([⟨p1, bs, none⟩, ⟨p2, [], some e⟩] : List ProviderResult).filter
        (fun r => r.error.isNone) = [⟨p1, bs, none⟩] := rfl
    rw [hfil]
    have hfl : (([⟨p1, bs, none⟩] : List ProviderResult).map
        (fun r => r.contracts)).flatten = bs := by simp
    rw [hfl, dedupById_eq_self bs hnd]
    exact List.take_of_length_le (by rw [List.length_insertionSort]; exact hlen)
  refine ⟨?_, ?_, ?_⟩
  · rw [h1]
    exact List.perm_insertionSort volGE bs
  · rw [h1, List.length_insertionSort]
  · rw [merge_snd]
    simp

/-- C1: for a dispatch against `provider=all` in which one provider fails
with reason `e` and the other returns the `N` contracts `bs`, the dispatch
returns exactly those `N` contracts (up to the aggregator's re-ranking, a
permutation) and a ToolCallRecord with `result_count = N`; the failure is a
plain value at the adapter boundary — it neither aborts the fan-out nor
produces an aggregate error. -/
theorem dispatch_partial_failure (adapters : Adapters) (q e : String)
    (bs : List MarketContract) (cap : Nat)
    (hnd : (bs.map (fun c => c.id)).Nodup) (hlen : bs.length ≤ cap) :
    (adapters Provider.kalshi q = Except.error e →
     adapters Provider.polymarket q = Except.ok bs →
       (invoke adapters ⟨ProviderFilter.all, q⟩ cap).markets.Perm bs
       ∧ (invoke adapters ⟨ProviderFilter.all, q⟩ cap).record =
           ⟨"search_markets", ProviderFilter.all, q, bs.length⟩
       ∧ (invoke adapters ⟨ProviderFilter.all, q⟩ cap).aggError = none)
    ∧ (adapters Provider.polymarket q = Except.error e →
       adapters Provider.kalshi q = Except.ok bs →
       (invoke adapters ⟨ProviderFilter.all, q⟩ cap).markets.Perm bs
       ∧ (invoke adapters ⟨ProviderFilter.all, q⟩ cap).record =
           ⟨"search_markets", ProviderFilter.all, q, bs.length⟩
       ∧ (invoke adapters ⟨ProviderFilter.all, q⟩ cap).aggError = none) := by
  constructor
  · intro hk hp
    have hmk : (invoke adapters ⟨ProviderFilter.all, q⟩ cap).markets
        = (merge [⟨Provider.kalshi, [], some e⟩, ⟨Provider.polymarket, bs, none⟩]
            none cap).1 := by
      rw [invoke_markets]
      simp [targetsOf, hk, hp]
    have hag : (invoke adapters ⟨ProviderFilter.all, q⟩ cap).aggError
        = (merge [⟨Provider.kalshi, [], some e⟩, ⟨Provider.polymarket, bs, none⟩]
            none cap).2 := by
      rw [invoke_aggError]
      simp [targetsOf, hk, hp]
    obtain ⟨hperm, hlen2, hnone⟩ :=
      merge_one_failed_one_ok Provider.kalshi Provider.polymarket e bs cap hnd hlen
    refine ⟨hmk ▸ hperm, ?_, hag ▸ hnone⟩
    rw [invoke_record, hmk, hlen2]
  · intro hp hk
    have hmk : (invoke adapters ⟨ProviderFilter.all, q⟩ cap).markets
        = (merge [⟨Provider.kalshi, bs, none⟩, ⟨Provider.polymarket, [], some e⟩]
            none cap).1 := by
      rw [invoke_markets]
      simp [targetsOf, hk, hp]
    have hag : (invoke adapters ⟨ProviderFilter.all, q⟩ cap).aggError
        = (merge [⟨Provider.kalshi, bs, none⟩, ⟨Provider.polymarket, [], some e⟩]
            none cap).2 := by
      rw [invoke_aggError]
      simp [targetsOf, hk, hp]
    obtain ⟨hperm, hlen2, hnone⟩ :=
      merge_one_ok_one_failed Provider.kalshi Provider.polymarket e bs cap hnd hlen
    refine ⟨hmk ▸ hperm, ?_, hag ▸ hnone⟩
    rw [invoke_record, hmk, hlen2]

/-- C1 witness: with Kalshi timing out and PolyMarket returning three
contracts, the fan-out dispatch yields those three contracts, a record with
`result_count = 3`, and no aggregate error. -/
theorem dispatch_partial_failure_witness :
    (invoke timeoutAdapters ⟨ProviderFilter.all, "coffee"⟩ 50).markets.Perm
        [sample2M, sample900K, sample5K]
    ∧ (invoke timeoutAdapters ⟨ProviderFilter.all, "coffee"⟩ 50).record =
        ⟨"search_markets", ProviderFilter.all, "coffee", 3⟩
    ∧ (invoke timeoutAdapters ⟨ProviderFilter.all, "coffee"⟩ 50).aggError = none :=
  (dispatch_partial_failure timeoutAdapters "coffee" "timeout"
    [sample2M, sample900K, sample5K] 50 (by decide) (by decide)).1 rfl rfl

/-- C2: every output of the Market Aggregator's merge is sorted by parsed
volume in descending numeric order, where `parseVolume` handles `K`/`M`
suffixes and currency symbols; in particular contracts with volumes `$5K`,
`$2M`, `$900K` come out ordered `$2M, $900K, $5K`. -/
theorem aggregator_ranking :
    (∀ (results : List ProviderResult) (q : Option String) (cap : Nat),
      (merge results q cap).1.Pairwise
        (fun a b => parseVolume b.volume ≤ parseVolume a.volume))
    ∧ (merge [⟨Provider.kalshi, [sample5K, sample2M, sample900K], none⟩] none 50).1
        = [sample2M, sample900K, sample5K]
    ∧ parseVolume "$2M" = 2000000
    ∧ parseVolume "$900K" = 900000
    ∧ parseVolume "$5K" = 5000 := by
  refine ⟨?_, by decide, by decide, by decide, by decide⟩
  intro results q cap
  exact merge_pairwise results q cap

/-- C3: the merged output never repeats an id — at most one occurrence of
each id survives dedup — and any contract of a successful provider whose
dispatch is unfiltered and below the cap does appear, so a shared id occurs
exactly once. -/
theorem aggregator_dedup :
    (∀ (results : List ProviderResult) (q : Option String) (cap : Nat),
      ((merge results q cap).1.map (fun c => c.id)).Nodup)
    ∧ (∀ (results : List ProviderResult) (cap : Nat) (c : MarketContract)
        (pr : ProviderResult), pr ∈ results → pr.error = none →
        c ∈ pr.contracts →
        (((results.filter (fun r => r.error.isNone)).map
            (fun r => r.contracts)).flatten).length ≤ cap →
        c.id ∈ (merge results none cap).1.map (fun x => x.id)) :=
  ⟨merge_nodup_ids, merge_mem_ids⟩

/-- C3 witness: a provider result set repeating the same contract twice
still yields a deduplicated output in which that id occurs (exactly) once. -/
theorem aggregator_dedup_witness :
    ((merge [⟨Provider.kalshi, [sample2M, sample2M], none⟩] none 50).1.map
        (fun c => c.id)).Nodup
    ∧ sample2M.id ∈ (merge [⟨Provider.kalshi, [sample2M, sample2M], none⟩]
        none 50).1.map (fun x => x.id) :=
  ⟨aggregator_dedup.1 [⟨Provider.kalshi, [sample2M, sample2M], none⟩] none 50,
   aggregator_dedup.2 [⟨Provider.kalshi, [sample2M, sample2M], none⟩] 50 sample2M
     ⟨Provider.kalshi, [sample2M, sample2M], none⟩
     (by decide) rfl (by decide) (by decide)⟩

/-- C4: when every provider of a dispatch fails, merge returns an empty
list plus a structured aggregate error carrying every failed provider's
reason (not a single provider's error); a turn whose adapters all fail
still completes — its tool records report zero results, the response's
market list is empty, and afterwards the session holds the full completed
transcript (user, tool and assistant messages), so it remains usable. -/
theorem aggregate_failure_non_fatal :
    (∀ (results : List ProviderResult) (q : Option String) (cap : Nat),
      results ≠ [] → (∀ r ∈ results, r.error.isSome = true) →
      (merge results q cap).1 = []
      ∧ (merge results q cap).2 =
          some ⟨results.filterMap (fun r => r.error.map (fun e => (r.provider, e)))⟩)
    ∧ (∀ (efn : Provider → String → String) (q : String) (cap : Nat),
        (invoke (fun p s => Except.error (efn p s)) ⟨ProviderFilter.all, q⟩ cap).aggError
          = some ⟨[(Provider.kalshi, efn Provider.kalshi q),
                   (Provider.polymarket, efn Provider.polymarket q)]⟩)
    ∧ (∀ (efn : Provider → String → String) (nlu : NLU) (cap : Nat)
        (st : SessionStore) (sid u : String) (arrival : List Nat),
        (∀ r ∈ turnRecords (fun p s => Except.error (efn p s)) nlu cap st sid u,
          r.result_count = 0)
        ∧ turnUnion (fun p s => Except.error (efn p s)) nlu cap st sid u = []
        ∧ (runTurn (fun p s => Except.error (efn p s)) nlu cap st sid u arrival).2.markets = []
        ∧ Store.lookup (runTurn (fun p s => Except.error (efn p s))
              nlu cap st sid u arrival).1 sid =
            some ⟨(Store.getOrCreate st sid).2.messages
                ++ (Message.user u ::
                    (((collectToolRecords (turnRecords (fun p s => Except.error (efn p s))
                        nlu cap st sid u) arrival).map Message.tool)
                      ++ [Message.assistant (turnReply nlu st sid u)])), []⟩) := by
  refine ⟨?_, ?_, ?_⟩
  · intro results q cap hne hall
    have hm := merge_all_failed results q cap hall
    refine ⟨hm.1, ?_⟩
    rw [hm.2, if_pos ?_]
    exact fun hlen => hne (List.length_eq_zero.mp hlen)
  · intro efn q cap
    exact invoke_all_failed_reasons efn q cap
  · intro efn nlu cap st sid u arrival
    have hout : ∀ o ∈ turnOutcomes (fun p s => Except.error (efn p s)) nlu cap st sid u,
        o.markets = [] ∧ o.record.result_count = 0 := by
      intro o ho
      rcases List.mem_map.mp ho with ⟨i, _, he⟩
      have hf := invoke_failing efn i cap
      rw [← he]
      exact ⟨hf.1, by rw [hf.2.1]⟩
    have hu : turnUnion (fun p s => Except.error (efn p s)) nlu cap st sid u = [] := by
      rw [turnUnion]
      have hfl : ((turnOutcomes (fun p s => Except.error (efn p s)) nlu cap st sid u).map
          (fun o => o.markets)).flatten = [] := by
        rw [List.flatten_eq_nil_iff]
        intro l hl
        rcases List.mem_map.mp hl with ⟨o, ho, he⟩
        rw [← he]
        exact (hout o ho).1
      rw [hfl]
      rfl
    refine ⟨?_, hu, ?_, ?_⟩
    · intro r hr
      rcases List.mem_map.mp hr with ⟨o, ho, he⟩
      rw [← he]
      exact (hout o ho).2
    · show turnUnion (fun p s => Except.error (efn p s)) nlu cap st sid u = []
      exact hu
    · rw [runTurn_lookup_self, hu]

/-- C4 witness: with a single all-failed provider result merge returns an
empty list, and a concrete all-failing turn produces an empty market union
while still completing. -/
theorem aggregate_failure_non_fatal_witness :
    ([⟨Provider.kalshi, [], some "timeout"⟩] : List ProviderResult) ≠ []
    ∧ (merge [⟨Provider.kalshi, [], some "timeout"⟩] none 50).1 = []
    ∧ turnUnion (fun p s => Except.error (failAllReason p s))
        oneIntentNLU 50 [] "s" "hi" = [] :=
  ⟨by decide,
   (aggregate_failure_non_fatal.1 [⟨Provider.kalshi, [], some "timeout"⟩] none 50
     (by decide) (by decide)).1,
   (aggregate_failure_non_fatal.2.2 failAllReason oneIntentNLU 50 [] "s" "hi" []).2.1⟩

/-- C5: however the concurrent dispatches complete (any arrival permutation
of the issue indices), the tool Messages appended to the session appear in
the deterministic order the intents were issued, never in completion
order. -/
theorem tool_messages_issue_order (adapters : Adapters) (nlu : NLU) (cap : Nat)
    (st : SessionStore) (sid u : String) (arrival : List Nat)
    (h : arrival.Perm (List.range (turnRecords adapters nlu cap st sid u).length)) :
    Store.lookup (runTurn adapters nlu cap st sid u arrival).1 sid =
      some ⟨(Store.getOrCreate st sid).2.messages
          ++ (Message.user u :: (((turnRecords adapters nlu cap st sid u).map
              Message.tool) ++ [Message.assistant (turnReply nlu st sid u)])),
        turnUnion adapters nlu cap st sid u⟩ := by
  rw [runTurn_lookup_self, collectToolRecords_of_perm_range _ _ h]

/-- C5 witness: intents issued in order [A = Kalshi/coffee, B =
PolyMarket/brazil] with B's provider completing first (arrival `[1, 0]`)
still leave the session's tool Messages in issue order A then B. -/
theorem tool_messages_issue_order_witness :
    Store.lookup (runTurn splitAdapters twoIntentNLU 50 [] "s" "hi" [1, 0]).1 "s" =
      some ⟨[Message.user "hi",
             Message.tool ⟨"search_markets",
               ProviderFilter.specific Provider.kalshi, "coffee", 1⟩,
             Message.tool ⟨"search_markets",
               ProviderFilter.specific Provider.polymarket, "brazil", 1⟩,
             Message.assistant "here are your hedges"],
            [sample5K, sample900K]⟩ :=
  (tool_messages_issue_order splitAdapters twoIntentNLU 50 [] "s" "hi" [1, 0]
    (by decide)).trans (by decide)

/-- C6: in every reachable session-store state, every stored transcript is
a sequence of completed turn blocks — each `tool` message sits between the
`user` message of its turn and that turn's single closing `assistant`
message — and no transcript ends in a trailing `tool` message. -/
theorem session_transcript_shape (st : SessionStore) (h : Reachable st)
    (sid : String) (s : Session) (hs : Store.lookup st sid = some s) :
    TurnBlocks s.messages
    ∧ ∀ r : ToolCallRecord, s.messages.getLast? ≠ some (Message.tool r) := by
  have key : ∀ st', Reachable st' → ∀ sid' s',
      Store.lookup st' sid' = some s' → TurnBlocks s'.messages := by
    intro st' h'
    induction h' with
    | init =>
      intro sid' s' hs'
      cases hs'
    | @create st0 sid0 hprev ih =>
      intro sid' s' hs'
      by_cases he : sid' = sid0
      · subst he
        rw [Store.lookup_getOrCreate_self] at hs'
        cases hl : Store.lookup st0 sid' with
        | some s0 =>
          have hgoc : (Store.getOrCreate st0 sid').2 = s0 := by
            simp [Store.getOrCreate, hl]
          rw [hgoc] at hs'
          cases hs'
          exact ih sid' _ hl
        | none =>
          rw [Store.getOrCreate_fresh st0 sid' hl] at hs'
          cases hs'
          exact TurnBlocks.nil
      · rw [Store.lookup_getOrCreate_ne _ he] at hs'
        exact ih sid' s' hs'
    | @turn st0 adapters nlu cap sid0 u arrival hprev ih =>
      intro sid' s' hs'
      by_cases he : sid' = sid0
      · subst he
        rw [runTurn_lookup_self] at hs'
        cases hs'
        have hprevblocks : TurnBlocks (Store.getOrCreate st0 sid').2.messages := by
          cases hl : Store.lookup st0 sid' with
          | some s0 =>
            have hgoc : (Store.getOrCreate st0 sid').2 = s0 := by
              simp [Store.getOrCreate, hl]
            rw [hgoc]
            exact ih sid' s0 hl
          | none =>
            rw [Store.getOrCreate_fresh st0 sid' hl]
            exact TurnBlocks.nil
        exact hprevblocks.append_turn u _ _
      · rw [runTurn_lookup_ne adapters nlu cap st0 sid0 u arrival he] at hs'
        exact ih sid' s' hs'
    | @dropStep st0 sid0 hprev ih =>
      intro sid' s' hs'
      by_cases he : sid' = sid0
      · subst he
        rw [Store.lookup_drop_self] at hs'
        cases hs'
      · rw [Store.lookup_drop_ne _ he] at hs'
        exact ih sid' s' hs'
  have hb := key st h sid s hs
  exact ⟨hb, fun r => hb.not_trailing_tool r⟩

/-- C6 witness: a store reachable through a completed all-provider turn
satisfies the turn-block shape for its stored session. -/
theorem session_transcript_shape_witness :
    TurnBlocks (((Store.lookup (runTurn splitAdapters twoIntentNLU 50 []
        "s" "hi" [0, 1]).1 "s").getD emptySession).messages)
    ∧ ∀ r : ToolCallRecord,
        (((Store.lookup (runTurn splitAdapters twoIntentNLU 50 []
            "s" "hi" [0, 1]).1 "s").getD emptySession).messages).getLast?
          ≠ some (Message.tool r) := by
  have hs : Store.lookup (runTurn splitAdapters twoIntentNLU 50 []
      "s" "hi" [0, 1]).1 "s" =
      some ((Store.lookup (runTurn splitAdapters twoIntentNLU 50 []
        "s" "hi" [0, 1]).1 "s").getD emptySession) := by decide
  exact session_transcript_shape _
    (Reachable.turn splitAdapters twoIntentNLU 50 "s" "hi" [0, 1] Reachable.init)
    "s" _ hs

/-- C7: for a never-seen session id, `getOrCreate` returns a session with
an empty transcript, and appending any sequence of N messages then reading
the transcript back yields exactly those N messages in insertion order. -/
theorem store_roundtrip (st : SessionStore) (sid : String) (ms : List Message)
    (h : Store.lookup st sid = none) :
    (Store.getOrCreate st sid).2.messages = []
    ∧ Store.lookup (Store.appendAll (Store.getOrCreate st sid).1 sid ms) sid
        = some ⟨ms, []⟩ := by
  have hfresh := Store.getOrCreate_fresh st sid h
  constructor
  · rw [hfresh]
    rfl
  · have h1 := Store.lookup_getOrCreate_self st sid
    rw [hfresh] at h1
    have h2 := Store.lookup_appendAll_self sid ms _ _ h1
    simpa [emptySession] using h2

/-- C7 witness: a fresh id in the empty store starts with an empty
transcript, and two appended messages read back in insertion order. -/
theorem store_roundtrip_witness :
    (Store.getOrCreate [] "s").2.messages = []
    ∧ Store.lookup (Store.appendAll (Store.getOrCreate [] "s").1 "s"
        [Message.user "hello", Message.assistant "hi"]) "s"
      = some ⟨[Message.user "hello", Message.assistant "hi"], []⟩ :=
  store_roundtrip [] "s" [Message.user "hello", Message.assistant "hi"] rfl

/-- C8: session drop is idempotent — dropping twice equals dropping once,
and dropping an id that is absent (unknown or already dropped) is a no-op
that leaves the store unchanged rather than an error. -/
theorem drop_idempotent (st : SessionStore) (sid : String) :
    Store.drop (Store.drop st sid) sid = Store.drop st sid
    ∧ (Store.lookup st sid = none → Store.drop st sid = st) :=
  ⟨Store.drop_drop st sid, Store.drop_of_lookup_none st sid⟩

/-- C8 witness: dropping an unknown id twice: both calls succeed and the
second (indeed each) is a no-op on a store that lacks the id. -/
theorem drop_idempotent_witness :
    Store.drop (Store.drop [("a", emptySession)] "b") "b"
        = Store.drop [("a", emptySession)] "b"
    ∧ Store.drop [("a", emptySession)] "b" = [("a", emptySession)] :=
  ⟨(drop_idempotent [("a", emptySession)] "b").1,
   (drop_idempotent [("a", emptySession)] "b").2 (by decide)⟩

/-- C9: the chat page's send handler replaces the markets list only when
the response's markets are non-empty: an empty `markets` array leaves the
previously displayed list unchanged, while the transcript is always
replaced by the response's messages. -/
theorem chat_markets_preserved (st : HomeState) (resp : ClientChatResponse) :
    (resp.markets = [] → handleSendSuccess st resp = ⟨resp.messages, st.markets⟩)
    ∧ (resp.markets ≠ [] → (handleSendSuccess st resp).markets = resp.markets)
    ∧ (handleSendSuccess st resp).messages = resp.messages := by
  refine ⟨?_, ?_, rfl⟩
  · intro h
    simp [handleSendSuccess, h]
  · intro h
    have hpos : resp.markets.length > 0 := List.length_pos.mpr h
    simp [handleSendSuccess, hpos]

/-- C9 witness: a zero-market response keeps the earlier markets on screen;
a non-empty response replaces them. -/
theorem chat_markets_preserved_witness :
    handleSendSuccess ⟨[], [sample5K]⟩ ⟨[], [], []⟩ = ⟨[], [sample5K]⟩
    ∧ (handleSendSuccess ⟨[], []⟩ ⟨[], [sample2M], []⟩).markets = [sample2M] :=
  ⟨(chat_markets_preserved ⟨[], [sample5K]⟩ ⟨[], [], []⟩).1 rfl,
   (chat_markets_preserved ⟨[], []⟩ ⟨[], [sample2M], []⟩).2.1 (by decide)⟩

/-- C10: with both provider toggles deselected the derived provider is
"all" (not an empty selection); `fetchMarkets` omits the `provider` query
parameter whenever the provider is "all" and omits the `query` parameter
whenever the query string is empty, so deselecting every provider requests
the unfiltered `/markets` endpoint. -/
theorem markets_page_provider_all (q p : String) :
    deriveProvider false false = "all"
    ∧ (fetchMarketsParams q "all").all (fun pr => pr.1 != "provider") = true
    ∧ (fetchMarketsParams "" p).all (fun pr => pr.1 != "query") = true
    ∧ fetchMarketsPath "" (deriveProvider false false) = "/markets" := by
  refine ⟨rfl, ?_, ?_, by decide⟩
  · by_cases hq : q = "" <;> simp [fetchMarketsParams, hq]
  · by_cases hp : p = "all" <;> simp [fetchMarketsParams, hp]

end Paper


